import Mathlib

/-!
Shallow embedding of `src/invertedIndex.py` (skip-pointer postings lists and
boolean-AND inverted-index queries), together with theorems settling the
specification claims about it.

Modelling conventions:
* Python ints become `Int` (document ids) or `Nat` (positions, lengths,
  intervals); Python lists become `List`.
* A `PostingsListNode` chain is represented by the list of its `doc` values in
  chain order plus the pair (length, interval) from which the skip links are
  computed; a cursor into a chain is a position (`Nat`), invalid when it is
  `≥` the length (Python `None`).
* Loops are embedded as fuelled recursions; the fuel bounds are generous and
  (for the outer merge loop) proved sufficient.
-/

/-- Embeds Python `range(0, stop, step)` (used at line 50 of the source for
skip-link placement): the fuelled worker emits `cur` and continues at
`cur + step` while `cur < stop`.  The fuel `stop` passed by `pyRange` is
sufficient whenever `step ≥ 1` (the only case Python accepts). -/
def pyRangeAux (stop step : Nat) : Nat → Nat → List Nat
  | 0, _ => []
  | fuel + 1, cur => if cur < stop then cur :: pyRangeAux stop step fuel (cur + step) else []

/-- Python `range(0, stop, step)`. -/
def pyRange (stop step : Nat) : List Nat := pyRangeAux stop step stop 0

/-- The skip link set up by `create_postings_list` (source lines 50-52): the
loop `for i in range(0, len(nodes), interval)` sets
`nodes[i].next_skip = nodes[i + interval]` exactly when `i + interval` is in
range.  `skipAt n k i` is the position the node at position `i` skips to in a
chain of `n` nodes with interval `k`, or `none` when the node has no skip
link. -/
def skipAt (n k i : Nat) : Option Nat :=
  if i ∈ pyRange n k ∧ i + k < n then some (i + k) else none

/-- Embeds the inner loop of `get_intersecting_documents` (source lines 92-93
and 97-98): `while p.next_skip and p.next_skip.doc <= bound: p = p.next_skip`.
`l` is the chain, `k` its interval, `i` the cursor position; returns the
position after following as many skip links as the condition allows.  The fuel
`l.length` passed by callers is sufficient since each skip moves at least one
position forward inside the chain. -/
def skipChase (l : List Int) (k : Nat) (bound : Int) : Nat → Nat → Nat
  | 0, i => i
  | fuel + 1, i =>
    match skipAt l.length k i with
    | none => i
    | some j =>
      match l[j]? with
      | none => i
      | some v => if v ≤ bound then skipChase l k bound fuel j else i

/-- Embeds the outer cursor loop of `get_intersecting_documents` (source lines
87-100).  `a`, `b` are the two chains with intervals `ka`, `kb`; `p1`, `p2`
the cursors.  Note the faithful rendering of the Python `while ... else`
construct at lines 92-95 / 97-100: since the inner `while` has no `break`, its
`else` branch always runs, so after the skip chase the cursor ALWAYS takes one
additional plain `next` step (`+ 1`).  Returns `none` only on fuel exhaustion
while the loop is still live (proved impossible for the fuel used by
`PostingsList.get_intersecting_documents`). -/
def interAux (a b : List Int) (ka kb : Nat) : Nat → Nat → Nat → Option (List Int)
  | 0, p1, p2 =>
    match a[p1]?, b[p2]? with
    | some _, some _ => none
    | _, _ => some []
  | fuel + 1, p1, p2 =>
    match a[p1]?, b[p2]? with
    | some d1, some d2 =>
      if d1 = d2 then
        (interAux a b ka kb fuel (p1 + 1) (p2 + 1)).map (fun r => d1 :: r)
      else if d1 < d2 then
        interAux a b ka kb fuel (skipChase a ka d2 a.length p1 + 1) p2
      else
        interAux a b ka kb fuel p1 (skipChase b kb d1 b.length p2 + 1)
    | _, _ => some []

/-- Helper for `pySetList`: drops elements already seen, keeping first
occurrences. -/
def dedupAux : List Int → List Int → List Int
  | _, [] => []
  | seen, x :: xs => if x ∈ seen then dedupAux seen xs else x :: dedupAux (x :: seen) xs

/-- Models `list(set(result))` (source line 102).  CPython's set iteration
order over ints is implementation-defined; we model the conversion as
first-occurrence-preserving deduplication.  Every claim settled in this file
is insensitive to that ordering choice: the concrete cases below apply it to
lists that are empty, singletons or duplicate-free, or feed the result into a
construction that re-sorts it, and the commutativity claim applies it to
syntactically identical lists on both sides. -/
def pySetList (l : List Int) : List Int := dedupAux [] l

/-- The `PostingsList` object state after `__init__` (source lines 18-24):
`docs` is `sorted(docs)`; `chain` is the sequence of node `doc` values reached
from `root` via `next`.  NOTE (faithful to line 24): the chain is built by
`create_postings_list(docs)` from the ORIGINAL argument order, not from the
sorted `self.docs`. -/
structure PostingsList where
  docs : List Int
  chain : List Int
  interval : Nat

/-- Embeds `PostingsList(docs=input, interval=interval)` (source lines
18-52): `self.docs = sorted(docs)` (Python `sorted` = stable ascending sort),
while the node chain is built from the unsorted argument. -/
def mkPostingsList (input : List Int) (interval : Nat) : PostingsList :=
  { docs := List.insertionSort (fun x y => x ≤ y) input
    chain := input
    interval := interval }

/-- Embeds `PostingsList.get_intersecting_documents` (source lines 72-102):
run the two-cursor skip merge from the two roots, then `list(set(result))`.
The fuel `|a| + |b|` is proved sufficient below
(`interAux_fuel_sufficient`). -/
def PostingsList.get_intersecting_documents (self other : PostingsList) : List Int :=
  pySetList ((interAux self.chain other.chain self.interval other.interval
    (self.chain.length + other.chain.length) 0 0).getD [])

/-- Kernel-computable integer square root, scanning candidates downwards:
`intSqrtAux m n` is the largest `j ≤ m` with `j * j ≤ n`. -/
def intSqrtAux : Nat → Nat → Nat
  | 0, _ => 0
  | m + 1, n => if (m + 1) * (m + 1) ≤ n then m + 1 else intSqrtAux m n

/-- The integer square root `⌊√n⌋`, executable by the kernel (proved equal to
`Nat.sqrt` in `intSqrt_eq_sqrt` below). -/
def intSqrt (n : Nat) : Nat := intSqrtAux n n

/-- The interval heuristic `int(math.sqrt(n)) if n >= 9 else 3` appearing at
source lines 69 and 149.  `int(math.sqrt(n))` (floor of the IEEE double
square root) equals the exact integer square root for every `n < 2^52`, in
particular for every Python list length arising here. -/
def heuristicInterval (n : Nat) : Nat := if 9 ≤ n then intSqrt n else 3

/-- Embeds `PostingsList.form_intersection_with` (source lines 54-70): wrap
the intersection into a fresh `PostingsList` whose interval is the heuristic
applied to `len(self.docs)`. -/
def PostingsList.form_intersection_with (self other : PostingsList) : PostingsList :=
  mkPostingsList (self.get_intersecting_documents other) (heuristicInterval self.docs.length)

/-- Modelled from the spec: the naive `O(n+m)` linear merge baseline of the
refinement claim ("a naive linear merge of the two chains that only follows
plain next links") — two cursors, equal heads recorded and both advanced,
otherwise the smaller side advanced by one plain `next` step.  Fuelled
worker. -/
def linearMergeAux : Nat → List Int → List Int → List Int
  | 0, _, _ => []
  | _ + 1, [], _ => []
  | _ + 1, _, [] => []
  | fuel + 1, x :: xs, y :: ys =>
    if x = y then x :: linearMergeAux fuel xs ys
    else if x < y then linearMergeAux fuel xs (y :: ys)
    else linearMergeAux fuel (x :: xs) ys

/-- Modelled from the spec: naive linear merge of two chains, skip links
ignored. -/
def linearMergeSpec (a b : List Int) : List Int := linearMergeAux (a.length + b.length) a b

/-- Python dict lookup for the index mapping, modelled as first-match lookup
in an association list (dict keys are unique, so first-match is exact). -/
def dictLookup (idx : List (String × List Int)) (t : String) : Option (List Int) :=
  (idx.find? (fun p => decide (p.1 = t))).map (fun p => p.2)

/-- The condition under which the loop body of `InvertedIndex.query` (source
lines 143-145) does NOT `continue`: the token is present in the index and
nonempty. -/
def keepToken (idx : List (String × List Int)) (t : String) : Bool :=
  (dictLookup idx t).isSome && !(decide (t = ""))

/-- One accumulation step of the query fold (source lines 152-155): the first
kept token's postings list seeds the accumulator, later ones are folded in via
`form_intersection_with`. -/
def queryStep (acc : Option PostingsList) (pl : PostingsList) : Option PostingsList :=
  match acc with
  | none => some pl
  | some i => some (i.form_intersection_with pl)

/-- Embeds the token loop of `InvertedIndex.query` (source lines 141-155):
tokens absent from the index or empty are skipped (`continue`); each kept
token is wrapped into a `PostingsList` with the heuristic interval for its raw
collection size and folded into the accumulator. -/
def queryFold (idx : List (String × List Int)) : Option PostingsList → List String → Option PostingsList
  | acc, [] => acc
  | acc, t :: ts =>
    match dictLookup idx t with
    | none => queryFold idx acc ts
    | some ids =>
      if t = "" then queryFold idx acc ts
      else queryFold idx (queryStep acc (mkPostingsList ids (heuristicInterval ids.length))) ts

/-- The query result on an already-tokenized text (source lines 141-157): run
the fold from an empty accumulator and return `intersection.docs if
intersection else []`. -/
def queryTokens (idx : List (String × List Int)) (tokens : List String) : List Int :=
  match queryFold idx none tokens with
  | some pl => pl.docs
  | none => []

/-- Helper for `tokenize`: split a character list at every space. -/
def splitTokens : List Char → List Char → List String
  | acc, [] => [String.mk acc.reverse]
  | acc, c :: cs =>
    if c = ' ' then String.mk acc.reverse :: splitTokens [] cs
    else splitTokens (c :: acc) cs

/-- Embeds the tokenization `re.split(r"(?:\s+|\s*[.!?\\-]+\s+|\s+[.!?\\-]+\s*)", text)`
(source line 142) for the query texts used below, which contain no punctuation
and only single-space separators: on such texts the regex splits exactly at
the spaces.  (On longer whitespace runs the regex and this splitter differ
only in empty tokens, which `query` skips anyway.) -/
def tokenize (text : String) : List String := splitTokens [] text.toList

/-- The `InvertedIndex` object (source lines 117-128): the raw token-to-ids
mapping, never mutated by querying. -/
structure InvertedIndex where
  index : List (String × List Int)

/-- Embeds `InvertedIndex.query` (source lines 130-157). -/
def InvertedIndex.query (self : InvertedIndex) (text : String) : List Int :=
  queryTokens self.index (tokenize text)

/-! ## Helper lemmas -/

/-- Unfolding: the skip chase stops when the node has no skip link. -/
theorem skipChase_succ_none {l : List Int} {k : Nat} {bound : Int} {fuel i : Nat}
    (hs : skipAt l.length k i = none) : skipChase l k bound (fuel + 1) i = i := by
  rw [skipChase, hs]

/-- Unfolding: the skip chase follows a present skip link exactly when the
target value is within the bound. -/
theorem skipChase_succ_some {l : List Int} {k : Nat} {bound : Int} {fuel i j : Nat} {v : Int}
    (hs : skipAt l.length k i = some j) (hv : l[j]? = some v) :
    skipChase l k bound (fuel + 1) i = if v ≤ bound then skipChase l k bound fuel j else i := by
  rw [skipChase, hs]
  simp only [hv]

/-- Unfolding: one live iteration of the merge loop. -/
theorem interAux_some_some {a b : List Int} {ka kb fuel p1 p2 : Nat} {d1 d2 : Int}
    (ha : a[p1]? = some d1) (hb : b[p2]? = some d2) :
    interAux a b ka kb (fuel + 1) p1 p2 =
      if d1 = d2 then (interAux a b ka kb fuel (p1 + 1) (p2 + 1)).map (fun r => d1 :: r)
      else if d1 < d2 then interAux a b ka kb fuel (skipChase a ka d2 a.length p1 + 1) p2
      else interAux a b ka kb fuel p1 (skipChase b kb d1 b.length p2 + 1) := by
  rw [interAux, ha, hb]

/-- Unfolding: the merge loop exits as soon as either cursor is invalid. -/
theorem interAux_none {a b : List Int} {ka kb fuel p1 p2 : Nat}
    (h : a[p1]? = none ∨ b[p2]? = none) :
    interAux a b ka kb fuel p1 p2 = some [] := by
  cases fuel with
  | zero =>
    rw [interAux]
    rcases h with h | h
    · rw [h]
    · rw [h]
      cases a[p1]? <;> rfl
  | succ fuel =>
    rw [interAux]
    rcases h with h | h
    · rw [h]
    · rw [h]
      cases a[p1]? <;> rfl

/-- Unfolding: the query fold skips a token that is absent from the index. -/
theorem queryFold_cons_none {idx : List (String × List Int)} {acc : Option PostingsList}
    {t : String} {ts : List String} (hl : dictLookup idx t = none) :
    queryFold idx acc (t :: ts) = queryFold idx acc ts := by
  rw [queryFold, hl]

/-- Unfolding: the query fold on a token present in the index. -/
theorem queryFold_cons_some {idx : List (String × List Int)} {acc : Option PostingsList}
    {t : String} {ts : List String} {ids : List Int} (hl : dictLookup idx t = some ids) :
    queryFold idx acc (t :: ts) =
      if t = "" then queryFold idx acc ts
      else queryFold idx (queryStep acc (mkPostingsList ids (heuristicInterval ids.length))) ts := by
  rw [queryFold, hl]

/-- Scanning downwards from any point at or above `Nat.sqrt n` finds exactly
`Nat.sqrt n`. -/
theorem intSqrtAux_eq (n : Nat) :
    ∀ m, Nat.sqrt n ≤ m → intSqrtAux m n = Nat.sqrt n := by
  intro m
  induction m with
  | zero =>
    intro h
    rw [intSqrtAux]
    omega
  | succ m ih =>
    intro h
    rw [intSqrtAux]
    by_cases hc : (m + 1) * (m + 1) ≤ n
    · rw [if_pos hc]
      have := Nat.le_sqrt.mpr hc
      omega
    · rw [if_neg hc]
      have hlt : ¬ (m + 1 ≤ Nat.sqrt n) := fun hle => hc (Nat.le_sqrt.mp hle)
      exact ih (by omega)

/-- The executable integer square root agrees with `Nat.sqrt`. -/
theorem intSqrt_eq_sqrt (n : Nat) : intSqrt n = Nat.sqrt n :=
  intSqrtAux_eq n n (Nat.sqrt_le_self n)

/-- Membership in the fuelled Python range: with positive step and enough
fuel, the emitted values are exactly the values `cur, cur + step, ...` below
`stop`. -/
theorem mem_pyRangeAux (step : Nat) (hs : 0 < step) :
    ∀ (fuel stop cur i : Nat), stop - cur ≤ fuel →
      (i ∈ pyRangeAux stop step fuel cur ↔ cur ≤ i ∧ i < stop ∧ (i - cur) % step = 0) := by
  intro fuel
  induction fuel with
  | zero =>
    intro stop cur i h
    simp only [pyRangeAux, List.not_mem_nil, false_iff]
    rintro ⟨h1, h2, _⟩
    omega
  | succ fuel ih =>
    intro stop cur i h
    by_cases hcur : cur < stop
    · rw [pyRangeAux, if_pos hcur]
      rw [List.mem_cons, ih stop (cur + step) i (by omega)]
      constructor
      · rintro (rfl | ⟨h1, h2, h3⟩)
        · exact ⟨Nat.le_refl _, hcur, by simp⟩
        · refine ⟨by omega, h2, ?_⟩
          have he : i - cur = (i - (cur + step)) + step := by omega
          rw [he, Nat.add_mod_right]
          exact h3
      · rintro ⟨h1, h2, h3⟩
        rcases Nat.eq_or_lt_of_le h1 with heq | hlt
        · exact Or.inl heq.symm
        · right
          have hd : step ∣ (i - cur) := Nat.dvd_of_mod_eq_zero h3
          have hge : step ≤ i - cur := Nat.le_of_dvd (by omega) hd
          refine ⟨by omega, h2, ?_⟩
          have he : i - cur = (i - (cur + step)) + step := by omega
          rw [he, Nat.add_mod_right] at h3
          exact h3
    · rw [pyRangeAux, if_neg hcur]
      simp only [List.not_mem_nil, false_iff]
      rintro ⟨h1, h2, _⟩
      omega

/-- Membership in the Python range `range(0, n, k)` for positive `k`. -/
theorem mem_pyRange (n k i : Nat) (hk : 0 < k) : i ∈ pyRange n k ↔ i < n ∧ i % k = 0 := by
  have h := mem_pyRangeAux k hk n n 0 i (by omega)
  simpa using h

/-- A skip link, when present, always targets position `i + k`. -/
theorem skipAt_some {n k i j : Nat} (h : skipAt n k i = some j) : j = i + k := by
  unfold skipAt at h
  split at h
  · exact (Option.some.inj h).symm
  · cases h

/-- The skip chase never moves a cursor backwards. -/
theorem skipChase_ge (l : List Int) (k : Nat) (bound : Int) :
    ∀ (fuel i : Nat), i ≤ skipChase l k bound fuel i := by
  intro fuel
  induction fuel with
  | zero => intro i; exact Nat.le_refl _
  | succ fuel ih =>
    intro i
    cases hs : skipAt l.length k i with
    | none => rw [skipChase_succ_none hs]
    | some j =>
      cases hv : l[j]? with
      | none =>
        rw [skipChase, hs]
        simp only [hv]
        exact Nat.le_refl _
      | some v =>
        rw [skipChase_succ_some hs hv]
        by_cases hb : v ≤ bound
        · rw [if_pos hb]
          have hj : j = i + k := skipAt_some hs
          exact Nat.le_trans (by omega) (ih j)
        · rw [if_neg hb]

/-- Termination of the merge loop: fuel covering the combined remaining chain
lengths suffices, since every live iteration strictly advances at least one
cursor. -/
theorem interAux_fuel_sufficient (a b : List Int) (ka kb : Nat) :
    ∀ (fuel p1 p2 : Nat), (a.length - p1) + (b.length - p2) ≤ fuel →
      ∃ r, interAux a b ka kb fuel p1 p2 = some r := by
  intro fuel
  induction fuel with
  | zero =>
    intro p1 p2 h
    refine ⟨[], interAux_none (Or.inl ?_)⟩
    rw [List.getElem?_eq_none_iff]
    omega
  | succ fuel ih =>
    intro p1 p2 h
    cases ha : a[p1]? with
    | none => exact ⟨[], interAux_none (Or.inl ha)⟩
    | some d1 =>
      cases hb : b[p2]? with
      | none => exact ⟨[], interAux_none (Or.inr hb)⟩
      | some d2 =>
        have hp1 : p1 < a.length := by
          by_contra hc
          rw [List.getElem?_eq_none_iff.mpr (by omega)] at ha
          cases ha
        have hp2 : p2 < b.length := by
          by_contra hc
          rw [List.getElem?_eq_none_iff.mpr (by omega)] at hb
          cases hb
        rw [interAux_some_some ha hb]
        by_cases he : d1 = d2
        · obtain ⟨r, hr⟩ := ih (p1 + 1) (p2 + 1) (by omega)
          refine ⟨d1 :: r, ?_⟩
          rw [if_pos he, hr]
          rfl
        · by_cases hlt : d1 < d2
          · have hge := skipChase_ge a ka d2 a.length p1
            obtain ⟨r, hr⟩ := ih (skipChase a ka d2 a.length p1 + 1) p2 (by omega)
            refine ⟨r, ?_⟩
            rw [if_neg he, if_pos hlt]
            exact hr
          · have hge := skipChase_ge b kb d1 b.length p2
            obtain ⟨r, hr⟩ := ih p1 (skipChase b kb d1 b.length p2 + 1) (by omega)
            refine ⟨r, ?_⟩
            rw [if_neg he, if_neg hlt]
            exact hr

/-- The merge loop is symmetric in its two chains: swapping the chains (with
their intervals and cursors) swaps the roles of the two branches and yields
the same recorded sequence. -/
theorem interAux_comm (a b : List Int) (ka kb : Nat) :
    ∀ (fuel p1 p2 : Nat), interAux a b ka kb fuel p1 p2 = interAux b a kb ka fuel p2 p1 := by
  intro fuel
  induction fuel with
  | zero =>
    intro p1 p2
    cases ha : a[p1]? with
    | none => rw [interAux_none (Or.inl ha), interAux_none (Or.inr ha)]
    | some d1 =>
      cases hb : b[p2]? with
      | none => rw [interAux_none (Or.inr hb), interAux_none (Or.inl hb)]
      | some d2 =>
        rw [interAux, interAux, ha, hb]
  | succ fuel ih =>
    intro p1 p2
    cases ha : a[p1]? with
    | none => rw [interAux_none (Or.inl ha), interAux_none (Or.inr ha)]
    | some d1 =>
      cases hb : b[p2]? with
      | none => rw [interAux_none (Or.inr hb), interAux_none (Or.inl hb)]
      | some d2 =>
        rw [interAux_some_some ha hb, interAux_some_some hb ha]
        by_cases he : d1 = d2
        · subst he
          rw [if_pos rfl, if_pos rfl, ih]
        · have hne : ¬ d2 = d1 := fun hx => he hx.symm
          rw [if_neg he, if_neg hne]
          by_cases hlt : d1 < d2
          · rw [if_pos hlt, if_neg (by omega : ¬ d2 < d1)]
            exact ih _ _
          · rw [if_neg hlt, if_pos (by omega : d2 < d1)]
            exact ih _ _

/-- Skipping a token in the query fold is the same as filtering it out first:
the fold only consumes tokens satisfying `keepToken`. -/
theorem queryFold_filter (idx : List (String × List Int)) :
    ∀ (tokens : List String) (acc : Option PostingsList),
      queryFold idx acc tokens = queryFold idx acc (tokens.filter (keepToken idx)) := by
  intro tokens
  induction tokens with
  | nil => intro acc; rfl
  | cons t ts ih =>
    intro acc
    rw [List.filter_cons]
    cases hl : dictLookup idx t with
    | none =>
      have hk : keepToken idx t = false := by simp [keepToken, hl]
      rw [hk]
      simp only [Bool.false_eq_true, if_false]
      rw [queryFold_cons_none hl]
      exact ih acc
    | some ids =>
      by_cases ht : t = ""
      · have hk : keepToken idx t = false := by simp [keepToken, ht]
        rw [hk]
        simp only [Bool.false_eq_true, if_false]
        rw [queryFold_cons_some hl, if_pos ht]
        exact ih acc
      · have hk : keepToken idx t = true := by simp [keepToken, hl, ht]
        rw [hk]
        simp only [if_true]
        rw [queryFold_cons_some hl, if_neg ht, queryFold_cons_some hl, if_neg ht]
        exact ih _

/-! ## Claim theorems -/

/-- C1: REFUTED by the code (code bug).  The claim states that
`get_intersecting_documents` returns exactly the ascending-deduplicated set
intersection of the two underlying collections.  On the lists `[1,2,3,4,5]`
and `[4]` (both built by the constructor with its default interval 3) the
document id 4 lies in both collections, yet the merge returns the empty list:
the skip chase lands exactly on the matching node (position 3, doc 4) and the
always-executed `else: p1 = p1.next` of the Python `while ... else` then steps
past it. -/
theorem C1_skip_merge_misses_common_document :
    (mkPostingsList [1, 2, 3, 4, 5] 3).get_intersecting_documents (mkPostingsList [4] 3) = []
      ∧ (4 : Int) ∈ (mkPostingsList [1, 2, 3, 4, 5] 3).docs
      ∧ (4 : Int) ∈ (mkPostingsList [4] 3).docs := by
  decide

/-- C2: REFUTED by the code (code bug).  The claim states that the node chain
visits the values of `docs` in ascending order.  `__init__` stores
`self.docs = sorted(docs)` but then calls `create_postings_list(docs)` on the
ORIGINAL unsorted argument, so for the input `[3,1,2]` the chain visits
`3, 1, 2` while `docs` is `[1,2,3]`. -/
theorem C2_chain_built_in_input_order :
    (mkPostingsList [3, 1, 2] 3).docs = [1, 2, 3]
      ∧ (mkPostingsList [3, 1, 2] 3).chain = [3, 1, 2]
      ∧ (mkPostingsList [3, 1, 2] 3).chain ≠ (mkPostingsList [3, 1, 2] 3).docs := by
  decide

/-- C3: REFUTED by the code (code bug).  The claim states that the
skip-accelerated merge returns the same sequence as a naive linear merge that
follows only plain `next` links.  On the chains `[1,2,3,4,5]` (skip link
0 → 3) and `[4]` the naive merge finds the common id 4 but the
skip-accelerated merge returns the empty list (same root cause as C1: the
mandatory extra `next` step after a skip chase). -/
theorem C3_skip_merge_differs_from_linear_merge :
    (mkPostingsList [1, 2, 3, 4, 5] 3).get_intersecting_documents (mkPostingsList [4] 3) = []
      ∧ pySetList (linearMergeSpec (mkPostingsList [1, 2, 3, 4, 5] 3).chain
          (mkPostingsList [4] 3).chain) = [4] := by
  decide

/-- C4: CONFIRMED.  For a `PostingsList` built from a collection with a
positive interval `k`, the node at chain position `i` carries a skip link iff
`i % k = 0` and `i + k` is strictly within the chain, and that link targets
position `i + k`. -/
theorem C4_skip_link_placement (input : List Int) (k i : Nat) (hk : 0 < k) :
    skipAt (mkPostingsList input k).chain.length k i =
      if i % k = 0 ∧ i + k < (mkPostingsList input k).chain.length then some (i + k)
      else none := by
  show skipAt input.length k i = if i % k = 0 ∧ i + k < input.length then some (i + k) else none
  unfold skipAt
  by_cases hc : i % k = 0 ∧ i + k < input.length
  · rw [if_pos hc, if_pos ⟨(mem_pyRange input.length k i hk).mpr ⟨by omega, hc.1⟩, hc.2⟩]
  · rw [if_neg hc, if_neg]
    rintro ⟨hmem, hlt⟩
    exact hc ⟨((mem_pyRange input.length k i hk).mp hmem).2, hlt⟩

/-- Witness for C4 at a concrete input: in a five-element list with interval
3, position 0 skips to position 3. -/
theorem C4_skip_link_placement_witness :
    skipAt (mkPostingsList [10, 20, 30, 40, 50] 3).chain.length 3 0 =
      if 0 % 3 = 0 ∧ 0 + 3 < (mkPostingsList ([10, 20, 30, 40, 50] : List Int) 3).chain.length
      then some (0 + 3) else none :=
  C4_skip_link_placement [10, 20, 30, 40, 50] 3 0 (by decide)

/-- C5: CONFIRMED.  Tokens absent from the index or empty are omitted from
the AND-fold without forcing the result to empty: the query fold over any
token list equals the fold over the kept tokens only; in particular, with
"cat" mapped to `[1,2,3]` and no entry for "dog", `query("cat dog")` returns
`[1,2,3]`.  Unknown tokens cannot raise: the embedded `query` is a total
function, the dict access being guarded by the membership test. -/
theorem C5_unknown_and_empty_tokens_skipped :
    (∀ (idx : List (String × List Int)) (tokens : List String) (acc : Option PostingsList),
        queryFold idx acc tokens = queryFold idx acc (tokens.filter (keepToken idx)))
      ∧ InvertedIndex.query ⟨[("cat", [1, 2, 3])]⟩ "cat dog" = [1, 2, 3] :=
  ⟨fun idx tokens acc => queryFold_filter idx tokens acc, by decide⟩

/-- C6: CONFIRMED.  For the index `{"a": [1..9], "b": [2,4,6,8,10]}`,
`query("a b")` returns exactly `[2,4,6,8]`. -/
theorem C6_scenario_query_a_b :
    InvertedIndex.query ⟨[("a", [1, 2, 3, 4, 5, 6, 7, 8, 9]), ("b", [2, 4, 6, 8, 10])]⟩ "a b" =
      [2, 4, 6, 8] := by
  decide

/-- C7: CONFIRMED.  `form_intersection_with` gives the new list the interval
`⌊√n⌋` if `n ≥ 9` and `3` otherwise, where `n` is the length of `self.docs` —
for every `other`, independent of the intersection result and of
`other.docs`. -/
theorem C7_intersection_interval_from_self_docs (A B : PostingsList) :
    (A.form_intersection_with B).interval =
      if 9 ≤ A.docs.length then Nat.sqrt A.docs.length else 3 := by
  show heuristicInterval A.docs.length = _
  rw [heuristicInterval, intSqrt_eq_sqrt]

/-- C8: CONFIRMED.  `get_intersecting_documents` is commutative: the cursor
loop is symmetric in the two chains, so swapping the arguments yields the
identical recorded sequence and hence the identical deduplicated result. -/
theorem C8_intersection_commutative (A B : PostingsList) :
    A.get_intersecting_documents B = B.get_intersecting_documents A := by
  unfold PostingsList.get_intersecting_documents
  rw [interAux_comm, Nat.add_comm]

/-- C9: CONFIRMED.  The merge loop terminates on every pair of postings
lists: with fuel equal to the combined chain length — an upper bound on the
number of iterations, since every live iteration strictly advances at least
one cursor — the fuelled loop completes (never exhausts its fuel), and
`get_intersecting_documents` returns the deduplication of its result. -/
theorem C9_merge_loop_terminates (A B : PostingsList) :
    ∃ r, interAux A.chain B.chain A.interval B.interval
        (A.chain.length + B.chain.length) 0 0 = some r
      ∧ A.get_intersecting_documents B = pySetList r := by
  obtain ⟨r, hr⟩ := interAux_fuel_sufficient A.chain B.chain A.interval B.interval
    (A.chain.length + B.chain.length) 0 0 (by omega)
  refine ⟨r, hr, ?_⟩
  unfold PostingsList.get_intersecting_documents
  rw [hr]
  rfl

/-- C10: CONFIRMED.  When the token list yields exactly one kept token (one
token that is nonempty and present in the index, mapped to the raw collection
`ids`), the query returns the ascending sort of `ids` with duplicates
retained: the result is sorted and is a permutation of `ids` — no
deduplication happens on a single-token query. -/
theorem C10_single_token_query_sorted_not_deduped
    (idx : List (String × List Int)) (tokens : List String) (t : String) (ids : List Int)
    (h1 : tokens.filter (keepToken idx) = [t]) (h2 : dictLookup idx t = some ids) :
    (queryTokens idx tokens).Sorted (fun x y => x ≤ y)
      ∧ (queryTokens idx tokens).Perm ids := by
  have hmem : t ∈ tokens.filter (keepToken idx) := by
    rw [h1]
    exact List.mem_singleton.mpr rfl
  have hkeep : keepToken idx t = true := (List.mem_filter.mp hmem).2
  have ht : ¬ t = "" := by
    intro hempty
    rw [keepToken, hempty] at hkeep
    simp at hkeep
  have hq : queryFold idx none tokens =
      some (mkPostingsList ids (heuristicInterval ids.length)) := by
    rw [queryFold_filter idx tokens none, h1, queryFold_cons_some h2, if_neg ht]
    rfl
  have hdocs : queryTokens idx tokens = List.insertionSort (fun x y => x ≤ y) ids := by
    rw [queryTokens, hq]
    rfl
  rw [hdocs]
  exact ⟨List.sorted_insertionSort _ ids, List.perm_insertionSort _ ids⟩

/-- Witness for C10 at a concrete input: the index maps "x" to the raw
collection `[5,5,2]`, the query tokens are "x" and the unknown "y"; the
result is sorted and keeps both copies of 5. -/
theorem C10_single_token_query_sorted_not_deduped_witness :
    (queryTokens [("x", [5, 5, 2])] ["x", "y"]).Sorted (fun x y => x ≤ y)
      ∧ (queryTokens [("x", [5, 5, 2])] ["x", "y"]).Perm [5, 5, 2] :=
  C10_single_token_query_sorted_not_deduped [("x", [5, 5, 2])] ["x", "y"] "x" [5, 5, 2]
    (by decide) (by decide)
